import Mathlib

/-!
Verification of the `progress` Go library (a Slack progress-bar tracker).

The embedding models Go strings as `List Char` (one entry per rune, which is
what `len([]rune(s))` counts), Go `int`/`int64` as `Int` with explicit
wrap-around where it matters, and the `float32` percentage computation as
exact round-to-nearest-even rounding to 24 significand bits on nonnegative
rationals represented by numerator/denominator pairs of naturals.

The external Slack client (`SendMessage` / `UpdateMessage`) and the
`text/template` engine are opaque collaborators in the source; they are
injected through a `SlackEnv` record of response functions.  A Go panic
(negative `strings.Repeat` count, division by zero) is modelled by `none`.
-/

/-- Go strings, one list entry per rune. -/
abbrev GoStr := List Char

/-- The error values surfaced by `Update`: the two sentinel errors declared at
the top of `progress.go`, template errors from `text/template`, and opaque
transport errors from the Slack client (`code` distinguishes values). -/
inductive GoErr where
  | errNegativePos
  | errMaxPosExceeded
  | templateErr (code : Nat)
  | transportErr (code : Nat)
deriving DecidableEq

/-- The `Options` struct of `progress.go` (strings as rune lists). -/
structure Options where
  Fill : GoStr
  Empty : GoStr
  Width : Int
  TotalUnits : Int
  Msg : GoStr
  Task : GoStr
  AsUser : Bool
  ShowEstTime : Bool
deriving DecidableEq

/-- The default message template of `DefaultOptions` (braces written as
hex escapes). -/
def defaultMsgTmpl : GoStr :=
  ("\x7b\x7b.Task\x7d\x7d\n`\x7b\x7b.ProgBar\x7d\x7d` \x7b\x7b.Pos\x7d\x7d%\n" ++
   "\x7b\x7b if .ShowEstTime \x7d\x7d" ++
   "\x7b\x7b if .Complete \x7d\x7dCompleted in *\x7b\x7b .Elapsed \x7d\x7d*" ++
   "\x7b\x7b else \x7d\x7d\x7b\x7b .Remaining \x7d\x7d remaining...\x7b\x7b end \x7d\x7d" ++
   "\x7b\x7b end \x7d\x7d").toList

/-- The `DefaultOptions` constructor of `progress.go`. -/
def DefaultOptions (task : GoStr) : Options :=
  { Fill := ['⬛']
  , Empty := ['⬜']
  , Width := 10
  , TotalUnits := 100
  , Msg := defaultMsgTmpl
  , Task := task
  , AsUser := false
  , ShowEstTime := true }

/-- The `Progress` struct of `progress.go`.  The `client` field (a
`*slack.Client`) is replaced by the injected environment; times are int64
nanosecond counts. -/
structure Progress where
  Opts : Options
  Start : Int
  channel : GoStr
  ts : GoStr
  lastPct : Int
deriving DecidableEq

/-- The data map bound by `Progress.msg` for template execution. -/
structure TmplData where
  Task : GoStr
  ProgBar : GoStr
  Pos : Int
  Remaining : Int
  Complete : Bool
  Elapsed : Int
  ShowEstTime : Bool
deriving DecidableEq

/-- The ambient world of one `Update` call: the current time and the opaque
external collaborators.  `sendMessage channel body asUser` returns the
(channel, timestamp, error) triple of `slack.Client.SendMessage`;
`updateMessage channel ts body` returns the (timestamp, error) pair of
`slack.Client.UpdateMessage` (the returned channel and text are discarded by
the source); `tmplExec tmpl data` is `text/template` parse-and-execute. -/
structure SlackEnv where
  now : Int
  sendMessage : GoStr → GoStr → Bool → GoStr × GoStr × Option GoErr
  updateMessage : GoStr → GoStr → GoStr → GoStr × Option GoErr
  tmplExec : GoStr → TmplData → Except GoErr GoStr

/-- Two-sided int64 wrap-around, used where Go `int64` arithmetic may
overflow. -/
def wrap64 (x : Int) : Int :=
  (x + 2 ^ 63) % 2 ^ 64 - 2 ^ 63

/-- Go `time.Duration.Round` (from the `time` package): round `d` to the
nearest multiple of `m`, halves away from zero, saturating on overflow. -/
def durRound (d m : Int) : Int :=
  if m ≤ 0 then d
  else
    let r := Int.tmod d m
    if d < 0 then
      let r2 := -r
      if r2 + r2 < m then d + r2
      else
        let d1 := wrap64 (d - m + r2)
        if d1 < d then d1 else -(2 ^ 63)
    else
      if r + r < m then d - r
      else
        let d1 := wrap64 (d + m - r)
        if d1 > d then d1 else 2 ^ 63 - 1

/-- Go `strings.Repeat` on rune lists: `none` models the panic on a negative
count. -/
def goRepeat (s : GoStr) (count : Int) : Option GoStr :=
  if count < 0 then none
  else some (List.flatten (List.replicate count.toNat s))

/-- A nonnegative rational `n / d`, the working representation for exact
`float32` values (`d = 0` never arises on reachable inputs). -/
structure F32Q where
  n : Nat
  d : Nat
deriving DecidableEq

/-- Number of binary digits of `n`, driven by an explicit fuel so that the
kernel can evaluate it on literals (`bitlenAux fuel n` is the bit length of
`n` whenever `n ≤ fuel`). -/
def bitlenAux : Nat → Nat → Nat
  | _, 0 => 0
  | 0, _ + 1 => 0
  | fuel + 1, n + 1 => bitlenAux fuel ((n + 1) / 2) + 1

/-- Number of binary digits of `n` (`0` for `n = 0`). -/
def bitlen (n : Nat) : Nat :=
  bitlenAux n n

/-- The rational value denoted by an `F32Q` pair. -/
def F32Q.val (x : F32Q) : ℚ :=
  (x.n : ℚ) / (x.d : ℚ)

/-- Round the scaled significand `num / den2` (a rational in `[2^23, 2^25)`)
to the nearest integer, ties to even. -/
def roundMant (num den2 : Nat) : Nat :=
  let q := num / den2
  if den2 < 2 * (num % den2) then q + 1
  else if 2 * (num % den2) = den2 ∧ q % 2 = 1 then q + 1
  else q

/-- The value `m * 2^e` as an `F32Q` pair. -/
def scaleVal (m : Nat) (e : Int) : F32Q :=
  if 0 ≤ e then ⟨m * 2 ^ e.toNat, 1⟩ else ⟨m, 2 ^ (-e).toNat⟩

/-- Round `x` to the nearest `float32` (24 significand bits, ties to even),
exactly, staying in numerator/denominator form.  For `x.n = 0` or the
degenerate `x.d = 0` the result is `0`.  Writing `s`/`t` for the bit lengths
of the numerator/denominator, the scaled significand
`num / den = (x.n / x.d) * 2^(24 - (s - t))` lies in `(2^23, 2^25)`; the
first branch keeps it below `2^24`, the second halves it. -/
def rnd24 (x : F32Q) : F32Q :=
  if x.n = 0 ∨ x.d = 0 then ⟨0, 1⟩
  else if x.n * 2 ^ (bitlen x.d + 24) < x.d * 2 ^ bitlen x.n * 2 ^ 24 then
    scaleVal (roundMant (x.n * 2 ^ (bitlen x.d + 24)) (x.d * 2 ^ bitlen x.n))
      ((bitlen x.n : Int) - bitlen x.d - 24)
  else
    scaleVal (roundMant (x.n * 2 ^ (bitlen x.d + 24)) (x.d * 2 ^ bitlen x.n * 2))
      ((bitlen x.n : Int) - bitlen x.d - 23)

/-- Exact quotient of two `F32Q` values (the real number handed to the
correctly-rounded `float32` division). -/
def qdiv (x y : F32Q) : F32Q :=
  ⟨x.n * y.d, x.d * y.n⟩

/-- Exact product with the constant `100` (exact in `float32`). -/
def qmul100 (x : F32Q) : F32Q :=
  ⟨x.n * 100, x.d⟩

/-- The percentage computation of `Update` on its reachable (nonnegative)
domain: `int(float32(pos) / float32(total) * 100)`, with every `float32`
operation rounded exactly to nearest-even and the final conversion
truncating. -/
def goPctN (pos total : Nat) : Nat :=
  let x := rnd24 ⟨pos, 1⟩
  let y := rnd24 ⟨total, 1⟩
  let r := rnd24 (qdiv x y)
  let p := rnd24 (qmul100 r)
  p.n / p.d

/-- The percentage `Update` computes for `pos` against `total`.  `Update`
evaluates this only after its guards established `0 ≤ pos ≤ total`, so the
nonnegative model applies. -/
def goPct (pos total : Int) : Int :=
  (goPctN pos.toNat total.toNat : Int)

/-- Go integer division by the bar width inside `drawBar`; `none` models the
panic when `Width = 0`. -/
def Progress.drawBar (p : Progress) (pos : Int) : Option GoStr :=
  if pos = 0 then goRepeat p.Opts.Empty p.Opts.Width
  else if p.Opts.Width = 0 then none
  else
    match goRepeat p.Opts.Fill (Int.tdiv pos p.Opts.Width) with
    | none => none
    | some bar =>
      match goRepeat p.Opts.Empty (p.Opts.Width - (bar.length : Int)) with
      | none => none
      | some pad => some (bar ++ pad)

/-- The `remaining` method: `estTime := elapsed/pct * 100` (note: the int64
division happens before the multiplication), `remaining := estTime - elapsed`
rounded to whole seconds.  `none` models the division-by-zero panic at
`pct = 0`. -/
def Progress.remaining (env : SlackEnv) (p : Progress) (pct : Int) : Option Int :=
  if pct = 0 then none
  else
    let elapsed := env.now - p.Start
    let estTime := wrap64 (wrap64 (Int.tdiv elapsed pct) * 100)
    some (durRound (wrap64 (estTime - elapsed)) 1000000000)

/-- The `msg` method: bind the template data (drawing the bar and computing
the remaining-time estimate, either of which can panic) and run the template.
The outer `none` is a panic; `Except.error` is a returned template error. -/
def Progress.msg (env : SlackEnv) (p : Progress) (pos : Int) : Option (Except GoErr GoStr) :=
  match p.drawBar pos, p.remaining env pos with
  | some bar, some rem =>
      some (env.tmplExec p.Opts.Msg
        { Task := p.Opts.Task
        , ProgBar := bar
        , Pos := pos
        , Remaining := rem
        , Complete := pos == 100
        , Elapsed := durRound (env.now - p.Start) 1000000
        , ShowEstTime := p.Opts.ShowEstTime })
  | _, _ => none

/-- The `Update` method of `progress.go`, line for line: validation guards,
percentage computation, throttle, message rendering, then send (first call)
or edit (later calls).  The result is `none` on a panic, otherwise the
post-call tracker state together with the returned error.  Note that the
source assigns the collaborator's return values to the tracker fields
unconditionally, before the error is inspected. -/
def Progress.Update (env : SlackEnv) (p : Progress) (pos : Int) :
    Option (Progress × Option GoErr) :=
  if pos < 0 then some (p, some GoErr.errNegativePos)
  else if pos > p.Opts.TotalUnits then some (p, some GoErr.errMaxPosExceeded)
  else
    let pct := goPct pos p.Opts.TotalUnits
    if pct ≤ p.lastPct then some (p, none)
    else
      match p.msg env pct with
      | none => none
      | some (Except.error e) => some (p, some e)
      | some (Except.ok m) =>
        if p.ts = [] then
          let res := env.sendMessage p.channel m p.Opts.AsUser
          some ({ p with channel := res.1, ts := res.2.1 }, res.2.2)
        else
          let res := env.updateMessage p.channel p.ts m
          some ({ p with ts := res.1, lastPct := pct }, res.2)

/-- The `New` constructor: `Start` is the construction time, `ts` the empty
string, `lastPct` the zero value, and a `nil` options argument selects
`DefaultOptions("Unknown Task")`.  The token only feeds the Slack client and
is unused by the model. -/
def New (_token channel : GoStr) (opts : Option Options) (now : Int) : Progress :=
  { Opts := opts.getD (DefaultOptions "Unknown Task".toList)
  , Start := now
  , channel := channel
  , ts := []
  , lastPct := 0 }

/-- Run a list of `Update` calls, collecting the tracker state after each
call (errors returned to the caller do not stop the run, matching the
library's example loop; a panic aborts with `none`). -/
def runStates (env : SlackEnv) (p : Progress) : List Int → Option (List Progress)
  | [] => some []
  | pos :: rest =>
    match p.Update env pos with
    | none => none
    | some (p2, _) =>
      match runStates env p2 rest with
      | none => none
      | some sts => some (p2 :: sts)

/-- A collaborator environment that always succeeds: sends return channel
`"ch"` and timestamp `"t1"`, edits return timestamp `"t2"`, templates render
to the empty string.  The parameter is the ambient clock value. -/
def envOk (t : Int) : SlackEnv :=
  { now := t
  , sendMessage := fun _ _ _ => (['c', 'h'], ['t', '1'], none)
  , updateMessage := fun _ _ _ => (['t', '2'], none)
  , tmplExec := fun _ _ => Except.ok [] }

/-- A collaborator environment whose send and edit operations both fail with
transport errors (returning empty strings, as the Slack client does on
failure); template rendering still succeeds. -/
def envErr : SlackEnv :=
  { now := 0
  , sendMessage := fun _ _ _ => ([], [], some (GoErr.transportErr 3))
  , updateMessage := fun _ _ _ => ([], some (GoErr.transportErr 7))
  , tmplExec := fun _ _ => Except.ok [] }

/-- A freshly constructed tracker with default configuration. -/
def pFresh : Progress :=
  New "tok".toList "dm".toList none 0

/-- A tracker mid-run: a message has been posted (`ts = "t"`) and the last
posted percentage is 10. -/
def pMid : Progress :=
  { Opts := DefaultOptions "T".toList
  , Start := 0
  , channel := ['c']
  , ts := ['t']
  , lastPct := 10 }

/-- A default-style tracker whose bar width is 5 instead of 10. -/
def pWidth5 : Progress :=
  { Opts := { DefaultOptions "T".toList with Width := 5 }
  , Start := 0
  , channel := ['c']
  , ts := ['t']
  , lastPct := 0 }

/-! ## Helper lemmas -/

theorem flatten_replicate_single (m : Nat) (c : Char) :
    List.flatten (List.replicate m [c]) = List.replicate m c := by
  induction m with
  | zero => rfl
  | succ k ih => simp [List.replicate_succ, ih]

theorem goRepeat_single (c : Char) (k : Int) (hk : 0 ≤ k) :
    goRepeat [c] k = some (List.replicate k.toNat c) := by
  rw [goRepeat, if_neg (by omega), flatten_replicate_single]

/-! ## Claim theorems -/

/-- C6: `Update` rejects `pos < 0` with `ErrNegativePos` and (checked second)
`pos > TotalUnits` with `ErrMaxPosExceeded`; in both cases the tracker state
is returned unchanged and the result does not depend on the collaborator
environment, i.e. no side effect is performed. -/
theorem update_validation (env : SlackEnv) (p : Progress) (pos : Int) :
    (pos < 0 → p.Update env pos = some (p, some GoErr.errNegativePos)) ∧
    (¬ pos < 0 → pos > p.Opts.TotalUnits →
      p.Update env pos = some (p, some GoErr.errMaxPosExceeded)) := by
  constructor
  · intro h
    simp [Progress.Update, h]
  · intro h0 h1
    simp [Progress.Update, h0, h1]

/-- Witness for C6 at `pos = -1` and `pos = 101` on the default tracker. -/
theorem update_validation_witness :
    pFresh.Update (envOk 0) (-1) = some (pFresh, some GoErr.errNegativePos) ∧
    pFresh.Update (envOk 0) 101 = some (pFresh, some GoErr.errMaxPosExceeded) :=
  ⟨(update_validation (envOk 0) pFresh (-1)).1 (by decide),
   (update_validation (envOk 0) pFresh 101).2 (by decide) (by decide)⟩

/-- C4: when the computed percentage does not exceed `lastPct`, `Update`
succeeds, the state is returned unchanged, and the result holds for every
environment (neither `Send` nor `Edit` is consulted). -/
theorem update_throttle (env : SlackEnv) (p : Progress) (pos : Int)
    (h0 : ¬ pos < 0) (h1 : ¬ pos > p.Opts.TotalUnits)
    (h2 : goPct pos p.Opts.TotalUnits ≤ p.lastPct) :
    p.Update env pos = some (p, none) := by
  simp [Progress.Update, h0, h1, h2]

/-- Witness for C4: position 5 against `lastPct = 10` on a mid-run tracker,
with the failing collaborator (whose errors would surface if it were
called). -/
theorem update_throttle_witness : pMid.Update envErr 5 = some (pMid, none) :=
  update_throttle envErr pMid 5 (by decide) (by decide) (by decide)

/-- C2 (amended): on a freshly constructed default tracker (`totalUnits=100`,
`width=10`, `lastPct` initialized to 0), `Update(0)` computes percentage 0,
but the throttle (`0 ≤ 0`) suppresses the call: `Update` returns success with
the state unchanged for every environment, so no `Send` is made and no bar is
rendered.  The bar for percentage 0 would be 10 empty glyphs (`drawBar 0`). -/
theorem update_zero_fresh (env : SlackEnv) (tok ch : GoStr) (t : Int) :
    goPct 0 (New tok ch none t).Opts.TotalUnits = 0 ∧
    (New tok ch none t).Update env 0 = some (New tok ch none t, none) ∧
    (New tok ch none t).drawBar 0 = some (List.replicate 10 '⬜') := by
  have h0 : ¬ (0 : Int) < 0 := by decide
  have h1 : ¬ (0 : Int) > (New tok ch none t).Opts.TotalUnits := by
    show ¬ (0 : Int) > 100
    decide
  have h2 : goPct 0 (New tok ch none t).Opts.TotalUnits ≤ (New tok ch none t).lastPct := by
    show goPct 0 100 ≤ 0
    decide
  refine ⟨by show goPct 0 100 = 0; decide, ?_, ?_⟩
  · simp [Progress.Update, h0, h1, h2]
  · show goRepeat ['⬜'] 10 = some (List.replicate 10 '⬜')
    decide

/-- C2 counterexample: with a collaborator whose send operation always fails,
`Update(0)` on a fresh default tracker still returns success with the state
unchanged (and `ts` still empty) — so the first post is *not* triggered at
percentage 0, contradicting the claim that `Update(0)` triggers `Send`. -/
theorem update_zero_no_send_cex :
    pFresh.Update envErr 0 = some (pFresh, none) ∧ pFresh.ts = [] :=
  ⟨rfl, rfl⟩

/-- C5: on the dispatch step with a successful collaborator call, a first
post (`ts` empty) records the returned channel and timestamp but leaves
`lastPct` untouched, while an edit (`ts` nonempty) records the returned
timestamp and sets `lastPct` to the computed percentage. -/
theorem update_success_state (env : SlackEnv) (p : Progress) (pos : Int) (m : GoStr)
    (h0 : ¬ pos < 0) (h1 : ¬ pos > p.Opts.TotalUnits)
    (h2 : ¬ goPct pos p.Opts.TotalUnits ≤ p.lastPct)
    (hm : p.msg env (goPct pos p.Opts.TotalUnits) = some (Except.ok m)) :
    (p.ts = [] → (env.sendMessage p.channel m p.Opts.AsUser).2.2 = none →
      p.Update env pos =
        some ({ p with channel := (env.sendMessage p.channel m p.Opts.AsUser).1,
                       ts := (env.sendMessage p.channel m p.Opts.AsUser).2.1 }, none)) ∧
    (p.ts ≠ [] → (env.updateMessage p.channel p.ts m).2 = none →
      p.Update env pos =
        some ({ p with ts := (env.updateMessage p.channel p.ts m).1,
                       lastPct := goPct pos p.Opts.TotalUnits }, none)) := by
  constructor
  · intro hts hok
    simp [Progress.Update, h0, h1, h2, hm, hts, hok]
  · intro hts hok
    simp [Progress.Update, h0, h1, h2, hm, hts, hok]

/-- Witness for C5: a successful first post at position 50 records channel
`"ch"` and timestamp `"t1"` with `lastPct` still 0; a successful edit at
position 50 on the mid-run tracker records timestamp `"t2"` and
`lastPct = 50`. -/
theorem update_success_state_witness :
    pFresh.Update (envOk 0) 50 =
      some ({ pFresh with channel := ['c', 'h'], ts := ['t', '1'] }, none) ∧
    pMid.Update (envOk 0) 50 =
      some ({ pMid with ts := ['t', '2'], lastPct := 50 }, none) :=
  ⟨by
    have h := (update_success_state (envOk 0) pFresh 50 [] (by decide) (by decide)
      (by decide) rfl).1 rfl rfl
    simpa using h,
   by
    have h := (update_success_state (envOk 0) pMid 50 [] (by decide) (by decide)
      (by decide) rfl).2 (by decide) rfl
    simpa using h⟩

/-- C1 (amended): after a dispatch, `Update` returns the collaborator's error
value verbatim (error or success alike), but the state mutation is identical
on both outcomes — the source assigns the returned values before looking at
the error.  On the send branch the returned channel and timestamp are
recorded (and `lastPct` is not advanced); on the edit branch the returned
timestamp is recorded and `lastPct` is set to the computed percentage.  Only
the validation, throttle and template-error paths return the state
untouched. -/
theorem update_collab_result_state (env : SlackEnv) (p : Progress) (pos : Int) (m : GoStr)
    (h0 : ¬ pos < 0) (h1 : ¬ pos > p.Opts.TotalUnits)
    (h2 : ¬ goPct pos p.Opts.TotalUnits ≤ p.lastPct)
    (hm : p.msg env (goPct pos p.Opts.TotalUnits) = some (Except.ok m)) :
    (p.ts = [] →
      p.Update env pos =
        some ({ p with channel := (env.sendMessage p.channel m p.Opts.AsUser).1,
                       ts := (env.sendMessage p.channel m p.Opts.AsUser).2.1 },
              (env.sendMessage p.channel m p.Opts.AsUser).2.2)) ∧
    (p.ts ≠ [] →
      p.Update env pos =
        some ({ p with ts := (env.updateMessage p.channel p.ts m).1,
                       lastPct := goPct pos p.Opts.TotalUnits },
              (env.updateMessage p.channel p.ts m).2)) := by
  constructor
  · intro hts
    simp [Progress.Update, h0, h1, h2, hm, hts]
  · intro hts
    simp [Progress.Update, h0, h1, h2, hm, hts]

/-- Witness for C1 (amended): on the mid-run tracker with the failing
collaborator, the edit error `transportErr 7` is returned while the empty
returned timestamp is recorded and `lastPct` is advanced to 50. -/
theorem update_collab_result_state_witness :
    pMid.Update envErr 50 =
      some ({ pMid with ts := [], lastPct := 50 }, some (GoErr.transportErr 7)) := by
  have h := (update_collab_result_state envErr pMid 50 [] (by decide) (by decide)
    (by decide) rfl).2 (by decide)
  simpa using h

/-- C1 counterexample: a failing edit call mutates the state: `Update`
returns the transport error, yet `ts` has been overwritten with the returned
empty string and `lastPct` advanced from 10 to 50 — the claim that on a
collaborator error the mutable state is exactly what it was before the call
is false at this input. -/
theorem update_error_mutates_cex :
    pMid.Update envErr 50 =
      some ({ Opts := DefaultOptions "T".toList, Start := 0, channel := ['c'],
              ts := [], lastPct := 50 }, some (GoErr.transportErr 7)) ∧
    pMid.ts = ['t'] ∧ pMid.lastPct = 10 :=
  ⟨rfl, rfl, rfl⟩

/-- C8: with single-rune glyphs, `drawBar 0` is `width` empty glyphs, and for
positive percentages with `k = percentage / width < width` the bar is `k`
fill glyphs followed by `width - k` empty glyphs, `width` characters in
total. -/
theorem drawBar_render (p : Progress) (f g : Char) (w : Int)
    (hf : p.Opts.Fill = [f]) (hg : p.Opts.Empty = [g])
    (hw : p.Opts.Width = w) (hw0 : 0 < w) :
    p.drawBar 0 = some (List.replicate w.toNat g) ∧
    ∀ pct : Int, 0 < pct → Int.tdiv pct w < w →
      p.drawBar pct =
        some (List.replicate (Int.tdiv pct w).toNat f ++
              List.replicate (w - Int.tdiv pct w).toNat g) ∧
      (List.replicate (Int.tdiv pct w).toNat f ++
        List.replicate (w - Int.tdiv pct w).toNat g).length = w.toNat := by
  constructor
  · rw [Progress.drawBar, if_pos rfl, hg, hw, goRepeat_single g w (le_of_lt hw0)]
  · intro pct hpct hk
    have hk0 : 0 ≤ Int.tdiv pct w := Int.tdiv_nonneg (le_of_lt hpct) (le_of_lt hw0)
    have hlen : (List.replicate (Int.tdiv pct w).toNat f).length = (Int.tdiv pct w).toNat :=
      List.length_replicate _ _
    constructor
    · rw [Progress.drawBar, if_neg (show ¬ pct = 0 by omega), hw,
        if_neg (show ¬ w = 0 by omega), hf, hg,
        goRepeat_single f (Int.tdiv pct w) hk0]
      simp only [List.length_replicate, Int.toNat_of_nonneg hk0]
      rw [goRepeat_single g (w - Int.tdiv pct w) (by omega)]
    · rw [List.length_append, List.length_replicate, List.length_replicate]
      omega

/-- Witness for C8: default tracker (width 10), percentage 37: three fill
glyphs, seven empty glyphs, ten characters. -/
theorem drawBar_render_witness :
    pFresh.drawBar 0 = some (List.replicate 10 '⬜') ∧
    pFresh.drawBar 37 =
      some (List.replicate 3 '⬛' ++ List.replicate 7 '⬜') := by
  have h := drawBar_render pFresh '⬛' '⬜' 10 rfl rfl rfl (by decide)
  refine ⟨h.1, ?_⟩
  have h2 := (h.2 37 (by decide) (by decide)).1
  simpa using h2

/-- C3 (amended): with single-rune glyphs, `drawBar` is total on percentages
in `[1, 100]` only when `filledCount = percentage / width` does not exceed
`width`; in that case it produces `filledCount` fill glyphs padded with
`width - filledCount` empty glyphs (zero padding when the fill exactly
reaches `width`).  When `filledCount` exceeds `width` the pad count is
negative and the source panics in `strings.Repeat` instead of flooring the
pad count at zero (see the counterexample). -/
theorem drawBar_total_of_fill_le (p : Progress) (f g : Char) (w pct : Int)
    (hf : p.Opts.Fill = [f]) (hg : p.Opts.Empty = [g])
    (hw : p.Opts.Width = w) (hw0 : 0 < w)
    (hp1 : 1 ≤ pct) (hp2 : pct ≤ 100) (hk : Int.tdiv pct w ≤ w) :
    p.drawBar pct =
      some (List.replicate (Int.tdiv pct w).toNat f ++
            List.replicate (w - Int.tdiv pct w).toNat g) := by
  have hk0 : 0 ≤ Int.tdiv pct w := Int.tdiv_nonneg (by omega) (le_of_lt hw0)
  rw [Progress.drawBar, if_neg (show ¬ pct = 0 by omega), hw,
    if_neg (show ¬ w = 0 by omega), hf, hg,
    goRepeat_single f (Int.tdiv pct w) hk0]
  simp only [List.length_replicate, Int.toNat_of_nonneg hk0]
  rw [goRepeat_single g (w - Int.tdiv pct w) (by omega)]

/-- Witness for C3 (amended): width 5, percentage 25: `filledCount = 5`
exactly reaches the width, the pad count floors at zero and the bar is five
fill glyphs. -/
theorem drawBar_total_of_fill_le_witness :
    pWidth5.drawBar 25 = some (List.replicate 5 '⬛' ++ List.replicate 0 '⬜') :=
  drawBar_total_of_fill_le pWidth5 '⬛' '⬜' 5 25 rfl rfl rfl (by decide)
    (by decide) (by decide) (by decide)

/-- C3 counterexample: at width 5 and percentage 30 (both in the ranges the
claim quantifies over), `filledCount = 30 / 5 = 6` exceeds the width, the pad
count `5 - 6` is negative, and `drawBar` panics (`none`) instead of flooring
the pad count at zero — `drawBar` is not total on `[1, 100] × positive
widths`. -/
theorem drawBar_panic_cex : pWidth5.drawBar 30 = none := rfl

set_option maxRecDepth 40000

/-- C7 (amended): for the default `totalUnits = 100`, the `float32`
computation `int(float32(pos) / float32(100) * 100)` equals the mathematical
floor `pos * 100 / 100 = pos` for every `pos` in `[0, 100]` *except*
`pos = 53` and `pos = 59`, where the two `float32` roundings land just below
the integer and truncation loses one: the single-precision pipeline is not
exactly the mathematical floor. -/
theorem goPct_default_total :
    ∀ n : Nat, n ≤ 100 →
      goPctN n 100 = if n = 53 ∨ n = 59 then n * 100 / 100 - 1 else n * 100 / 100 := by
  decide

/-- Witness for C7 (amended) at `pos = 29` (a historically tricky value that
does round correctly in single precision). -/
theorem goPct_default_total_witness : goPctN 29 100 = 29 := by
  have h := goPct_default_total 29 (by decide)
  simpa using h

/-- C7 counterexample: `pos = 53`, `totalUnits = 100` (an in-range input for
the default configuration): the `float32` pipeline yields 52 while the
mathematical floor is 53. -/
theorem goPct_float_cex : goPctN 53 100 = 52 ∧ 53 * 100 / 100 = 53 := by decide

theorem wrap64_eq_self (x : Int) (h1 : -(2 ^ 63) ≤ x) (h2 : x < 2 ^ 63) :
    wrap64 x = x := by
  simp only [wrap64]
  rw [Int.emod_eq_of_lt (by omega) (by omega)]
  omega

theorem tdiv_mul_sub_bound (e pct : Int) (he : 0 ≤ e) (hp : 1 ≤ pct) :
    0 ≤ Int.tdiv (e * 100) pct - Int.tdiv e pct * 100 ∧
    Int.tdiv (e * 100) pct - Int.tdiv e pct * 100 < 100 := by
  rw [Int.tdiv_eq_ediv (by positivity) (by omega), Int.tdiv_eq_ediv he (by omega)]
  have hdecomp := Int.ediv_add_emod e pct
  have hr0 : 0 ≤ e % pct := Int.emod_nonneg e (by omega)
  have hr1 : e % pct < pct := Int.emod_lt_of_pos e (by omega)
  have h100 : e * 100 = e % pct * 100 + pct * (e / pct * 100) := by
    nth_rewrite 1 [← hdecomp]
    ring
  rw [h100, Int.add_mul_ediv_left _ _ (show pct ≠ 0 by omega)]
  have hlow : 0 ≤ e % pct * 100 / pct := Int.ediv_nonneg (by positivity) (by omega)
  have hhigh : e % pct * 100 / pct < 100 :=
    (Int.ediv_lt_iff_lt_mul (by omega)).mpr (by nlinarith)
  omega

/-- C10 (amended): `remaining` computes `estTime = (elapsed / pct) * 100`
with the int64 division performed *before* the multiplication by 100 (no
int64 wrap-around occurs for elapsed times up to `2^56` ns ≈ 2.28 years),
and this underestimates the claim's formula `elapsed * 100 / pct` by less
than 100 nanoseconds — so the two agree after rounding to seconds except
when that sub-100 ns gap straddles a half-second rounding boundary (see the
counterexample). -/
theorem remaining_div_before_mul (env : SlackEnv) (p : Progress) (pct : Int)
    (h1 : 1 ≤ pct) (he0 : 0 ≤ env.now - p.Start) (heB : env.now - p.Start ≤ 2 ^ 56) :
    p.remaining env pct =
      some (durRound (Int.tdiv (env.now - p.Start) pct * 100 - (env.now - p.Start))
        1000000000) ∧
    0 ≤ Int.tdiv ((env.now - p.Start) * 100) pct -
        Int.tdiv (env.now - p.Start) pct * 100 ∧
    Int.tdiv ((env.now - p.Start) * 100) pct -
        Int.tdiv (env.now - p.Start) pct * 100 < 100 := by
  have hq0 : 0 ≤ Int.tdiv (env.now - p.Start) pct := Int.tdiv_nonneg he0 (by omega)
  have hqle : Int.tdiv (env.now - p.Start) pct ≤ env.now - p.Start := by
    rw [Int.tdiv_eq_ediv he0 (by omega)]
    exact Int.ediv_le_self _ he0
  have w1 : wrap64 (Int.tdiv (env.now - p.Start) pct) =
      Int.tdiv (env.now - p.Start) pct :=
    wrap64_eq_self _ (by omega) (by omega)
  have w2 : wrap64 (Int.tdiv (env.now - p.Start) pct * 100) =
      Int.tdiv (env.now - p.Start) pct * 100 :=
    wrap64_eq_self _ (by omega) (by omega)
  have w3 : wrap64 (Int.tdiv (env.now - p.Start) pct * 100 - (env.now - p.Start)) =
      Int.tdiv (env.now - p.Start) pct * 100 - (env.now - p.Start) :=
    wrap64_eq_self _ (by omega) (by omega)
  refine ⟨?_, tdiv_mul_sub_bound _ _ he0 h1⟩
  simp only [Progress.remaining, if_neg (show ¬ pct = 0 by omega), w1, w2, w3]

/-- Witness for C10 (amended): 1 s elapsed at 4 %: the estimate is
`(10^9 / 4) * 100 - 10^9 = 24 s`. -/
theorem remaining_div_before_mul_witness :
    pFresh.remaining (envOk 1000000000) 4 = some 24000000000 := by
  rw [(remaining_div_before_mul (envOk 1000000000) pFresh 4 (by decide) (by decide)
    (by decide)).1]
  decide

/-- C10 counterexample: `elapsed = 500000049 ns`, `pct = 50`.  The code's
`(elapsed / 50) * 100 - elapsed = 499999951 ns` rounds to 0 s, while the
claim's `elapsed * 100 / 50 - elapsed = 500000049 ns` rounds to 1 s — the
code's integer computation does not agree with the claimed formula after
rounding to the nearest whole second. -/
theorem remaining_formula_cex :
    pFresh.remaining (envOk 500000049) 50 = some 0 ∧
    durRound (Int.tdiv (500000049 * 100) 50 - 500000049) 1000000000 = 1000000000 := by
  decide

theorem bitlenAux_lt : ∀ fuel n : Nat, n ≤ fuel → n < 2 ^ bitlenAux fuel n := by
  intro fuel
  induction fuel with
  | zero =>
    intro n h
    interval_cases n
    simp [bitlenAux]
  | succ f ih =>
    intro n h
    match n with
    | 0 => simp [bitlenAux]
    | k + 1 =>
      have hrec : bitlenAux (f + 1) (k + 1) = bitlenAux f ((k + 1) / 2) + 1 := rfl
      have hhalf := ih ((k + 1) / 2) (by omega)
      have hpow : 2 ^ (bitlenAux f ((k + 1) / 2) + 1) =
          2 * 2 ^ bitlenAux f ((k + 1) / 2) := by ring
      rw [hrec, hpow]
      omega

theorem bitlenAux_ge : ∀ fuel n : Nat, n ≤ fuel → n ≠ 0 → 2 ^ (bitlenAux fuel n - 1) ≤ n := by
  intro fuel
  induction fuel with
  | zero =>
    intro n h h0
    omega
  | succ f ih =>
    intro n h h0
    match n with
    | k + 1 =>
      have hrec : bitlenAux (f + 1) (k + 1) = bitlenAux f ((k + 1) / 2) + 1 := rfl
      rw [hrec]
      by_cases hk : (k + 1) / 2 = 0
      · have hk1 : k = 0 := by omega
        subst hk1
        simp [hk, bitlenAux]
      · have hhalf := ih ((k + 1) / 2) (by omega) hk
        have hpos : 1 ≤ bitlenAux f ((k + 1) / 2) := by
          rcases f with _ | f'
          · omega
          · rcases hm : (k + 1) / 2 with _ | j
            · omega
            · have : bitlenAux (f' + 1) (j + 1) = bitlenAux f' ((j + 1) / 2) + 1 := rfl
              omega
        have hpow : 2 ^ (bitlenAux f ((k + 1) / 2) + 1 - 1) =
            2 * 2 ^ (bitlenAux f ((k + 1) / 2) - 1) := by
          rw [Nat.add_sub_cancel, ← pow_succ']
          congr 1
          omega
        rw [hpow]
        omega

theorem bitlen_lt (n : Nat) : n < 2 ^ bitlen n :=
  bitlenAux_lt n n le_rfl

theorem bitlen_ge (n : Nat) (h : n ≠ 0) : 2 ^ (bitlen n - 1) ≤ n :=
  bitlenAux_ge n n le_rfl h

theorem bitlen_pos (n : Nat) (h : n ≠ 0) : 1 ≤ bitlen n := by
  match n, h with
  | k + 1, _ =>
    have hrec : bitlen (k + 1) = bitlenAux k ((k + 1) / 2) + 1 := rfl
    omega

theorem roundMant_bounds (num den2 : Nat) (hden : den2 ≠ 0)
    (hlow : 2 ^ 23 * den2 ≤ num) :
    (num : ℚ) / den2 * (1 - 1 / 2 ^ 24) ≤ (roundMant num den2 : ℚ) ∧
    (roundMant num den2 : ℚ) ≤ (num : ℚ) / den2 * (1 + 1 / 2 ^ 24) := by
  have hd0 : (0 : ℚ) < (den2 : ℚ) := by
    exact_mod_cast Nat.pos_of_ne_zero hden
  have hqr : (num : ℚ) = den2 * (num / den2 : Nat) + (num % den2 : Nat) := by
    exact_mod_cast (Nat.div_add_mod num den2).symm
  have hmu : (num : ℚ) / den2 = (num / den2 : Nat) + (num % den2 : Nat) / den2 := by
    rw [hqr]
    field_simp
    ring
  have hr0 : (0 : ℚ) ≤ (num % den2 : Nat) := by positivity
  have hrlt : ((num % den2 : Nat) : ℚ) < den2 := by
    exact_mod_cast Nat.mod_lt num (Nat.pos_of_ne_zero hden)
  have hfr_lt : (num % den2 : Nat) / (den2 : ℚ) < 1 := by
    rw [div_lt_one hd0]
    exact hrlt
  have hfr0 : (0 : ℚ) ≤ (num % den2 : Nat) / (den2 : ℚ) := div_nonneg hr0 hd0.le
  have hmu23 : (2 : ℚ) ^ 23 ≤ (num : ℚ) / den2 := by
    rw [le_div_iff hd0]
    exact_mod_cast hlow
  rw [roundMant]
  split_ifs with h1 h2
  · -- round up: den2 < 2 * r, so 1/2 < r / den2
    have hn : den2 < num % den2 * 2 := by omega
    have hfr : (1 : ℚ) / 2 < (num % den2 : Nat) / den2 := by
      rw [div_lt_div_iff (by norm_num) hd0, one_mul]
      exact_mod_cast hn
    push_cast
    constructor <;> linarith [hmu, hmu23, hfr, hfr_lt]
  · -- tie, odd mantissa: round up, r / den2 = 1/2
    have hn : num % den2 * 2 = den2 := by omega
    have hfr : ((num % den2 : Nat) : ℚ) / den2 = 1 / 2 := by
      rw [div_eq_div_iff hd0.ne' (by norm_num), one_mul]
      exact_mod_cast hn
    push_cast
    constructor <;> linarith [hmu, hmu23, hfr]
  · -- round down: 2 * r ≤ den2, so r / den2 ≤ 1/2
    have hn : num % den2 * 2 ≤ den2 := by omega
    have hfr : ((num % den2 : Nat) : ℚ) / den2 ≤ 1 / 2 := by
      rw [div_le_div_iff hd0 (by norm_num), one_mul]
      exact_mod_cast hn
    constructor <;> linarith [hmu, hmu23, hfr, hfr0]

theorem scaleVal_val (m : Nat) (e : Int) :
    (scaleVal m e).val = (m : ℚ) * (2 : ℚ) ^ e := by
  rw [scaleVal]
  split_ifs with h
  · simp only [F32Q.val]
    push_cast
    rw [← zpow_natCast (2 : ℚ) e.toNat, Int.toNat_of_nonneg h]
    ring
  · simp only [F32Q.val]
    push_cast
    rw [← zpow_natCast (2 : ℚ) (-e).toNat, Int.toNat_of_nonneg (by omega)]
    rw [div_eq_mul_inv, ← zpow_neg, neg_neg]

theorem scaleVal_d_pos (m : Nat) (e : Int) : 0 < (scaleVal m e).d := by
  rw [scaleVal]
  split_ifs <;> positivity

theorem rnd24_scale_eq_A (x : F32Q) (hd : x.d ≠ 0) :
    ((x.n * 2 ^ (bitlen x.d + 24) : ℕ) : ℚ) / ((x.d * 2 ^ bitlen x.n : ℕ) : ℚ) *
      (2 : ℚ) ^ ((bitlen x.n : Int) - bitlen x.d - 24) = x.val := by
  have h2 : (2 : ℚ) ≠ 0 := two_ne_zero
  have he : (bitlen x.n : ℤ) - bitlen x.d - 24 =
      (bitlen x.n : ℤ) - ((bitlen x.d + 24 : ℕ) : ℤ) := by
    push_cast
    ring
  rw [he, zpow_sub₀ h2, zpow_natCast, zpow_natCast, F32Q.val]
  have hd' : ((x.d : ℚ)) ≠ 0 := Nat.cast_ne_zero.mpr hd
  have hp1 : ((2 : ℚ)) ^ bitlen x.n ≠ 0 := by positivity
  have hp2 : ((2 : ℚ)) ^ (bitlen x.d + 24) ≠ 0 := by positivity
  push_cast
  field_simp
  ring

theorem rnd24_scale_eq_B (x : F32Q) (hd : x.d ≠ 0) :
    ((x.n * 2 ^ (bitlen x.d + 24) : ℕ) : ℚ) / ((x.d * 2 ^ bitlen x.n * 2 : ℕ) : ℚ) *
      (2 : ℚ) ^ ((bitlen x.n : Int) - bitlen x.d - 23) = x.val := by
  have h2 : (2 : ℚ) ≠ 0 := two_ne_zero
  have he : (bitlen x.n : ℤ) - bitlen x.d - 23 =
      (bitlen x.n : ℤ) - ((bitlen x.d + 24 : ℕ) : ℤ) + 1 := by
    push_cast
    ring
  rw [he, zpow_add₀ h2, zpow_sub₀ h2, zpow_natCast, zpow_natCast, zpow_one, F32Q.val]
  have hd' : ((x.d : ℚ)) ≠ 0 := Nat.cast_ne_zero.mpr hd
  have hp1 : ((2 : ℚ)) ^ bitlen x.n ≠ 0 := by positivity
  have hp2 : ((2 : ℚ)) ^ (bitlen x.d + 24) ≠ 0 := by positivity
  push_cast
  field_simp
  ring

theorem branchA_low (x : F32Q) (hn : x.n ≠ 0) :
    2 ^ 23 * (x.d * 2 ^ bitlen x.n) ≤ x.n * 2 ^ (bitlen x.d + 24) := by
  have hs : 1 ≤ bitlen x.n := bitlen_pos _ hn
  obtain ⟨s, hs'⟩ : ∃ s, bitlen x.n = s + 1 := ⟨bitlen x.n - 1, by omega⟩
  have h1 : 2 ^ s ≤ x.n := by
    have := bitlen_ge x.n hn
    rw [hs'] at this
    simpa using this
  have h2 : x.d ≤ 2 ^ bitlen x.d := le_of_lt (bitlen_lt _)
  rw [hs']
  calc 2 ^ 23 * (x.d * 2 ^ (s + 1)) = 2 ^ s * x.d * 2 ^ 24 := by
        rw [pow_succ]
        ring
    _ ≤ 2 ^ s * 2 ^ bitlen x.d * 2 ^ 24 :=
        Nat.mul_le_mul (Nat.mul_le_mul (le_refl _) h2) (le_refl _)
    _ = 2 ^ s * 2 ^ (bitlen x.d + 24) := by
        rw [pow_add]
        ring
    _ ≤ x.n * 2 ^ (bitlen x.d + 24) := Nat.mul_le_mul h1 (le_refl _)

theorem rnd24_val_bounds (x : F32Q) (hn : x.n ≠ 0) (hd : x.d ≠ 0) :
    x.val * (1 - 1 / 2 ^ 24) ≤ (rnd24 x).val ∧
    (rnd24 x).val ≤ x.val * (1 + 1 / 2 ^ 24) := by
  have hcond : ¬ (x.n = 0 ∨ x.d = 0) := by simp [hn, hd]
  rw [rnd24, if_neg hcond]
  split_ifs with hc
  · set num := x.n * 2 ^ (bitlen x.d + 24) with hnumdef
    set den2 := x.d * 2 ^ bitlen x.n with hden2def
    have hden0 : den2 ≠ 0 := Nat.mul_ne_zero hd (by positivity)
    have hlow : 2 ^ 23 * den2 ≤ num := branchA_low x hn
    have hb := roundMant_bounds num den2 hden0 hlow
    have hveq := rnd24_scale_eq_A x hd
    rw [scaleVal_val]
    have hpe : (0 : ℚ) < (2 : ℚ) ^ ((bitlen x.n : Int) - bitlen x.d - 24) := by
      positivity
    constructor
    · calc x.val * (1 - 1 / 2 ^ 24)
          = (num : ℚ) / den2 * (1 - 1 / 2 ^ 24) *
            (2 : ℚ) ^ ((bitlen x.n : Int) - bitlen x.d - 24) := by
            rw [← hveq]
            ring
        _ ≤ (roundMant num den2 : ℚ) *
            (2 : ℚ) ^ ((bitlen x.n : Int) - bitlen x.d - 24) :=
            mul_le_mul_of_nonneg_right hb.1 hpe.le
    · calc (roundMant num den2 : ℚ) *
          (2 : ℚ) ^ ((bitlen x.n : Int) - bitlen x.d - 24)
          ≤ (num : ℚ) / den2 * (1 + 1 / 2 ^ 24) *
            (2 : ℚ) ^ ((bitlen x.n : Int) - bitlen x.d - 24) :=
            mul_le_mul_of_nonneg_right hb.2 hpe.le
        _ = x.val * (1 + 1 / 2 ^ 24) := by
            rw [← hveq]
            ring
  · set num := x.n * 2 ^ (bitlen x.d + 24) with hnumdef
    set den2 := x.d * 2 ^ bitlen x.n * 2 with hden2def
    have hden0 : den2 ≠ 0 :=
      Nat.mul_ne_zero (Nat.mul_ne_zero hd (by positivity)) (by norm_num)
    have hlow : 2 ^ 23 * den2 ≤ num := by
      have hge : x.d * 2 ^ bitlen x.n * 2 ^ 24 ≤ num := Nat.not_lt.mp hc
      calc 2 ^ 23 * den2 = x.d * 2 ^ bitlen x.n * 2 ^ 24 := by
            rw [hden2def]
            ring
        _ ≤ num := hge
    have hb := roundMant_bounds num den2 hden0 hlow
    have hveq := rnd24_scale_eq_B x hd
    rw [scaleVal_val]
    have hpe : (0 : ℚ) < (2 : ℚ) ^ ((bitlen x.n : Int) - bitlen x.d - 23) := by
      positivity
    constructor
    · calc x.val * (1 - 1 / 2 ^ 24)
          = (num : ℚ) / den2 * (1 - 1 / 2 ^ 24) *
            (2 : ℚ) ^ ((bitlen x.n : Int) - bitlen x.d - 23) := by
            rw [← hveq]
            ring
        _ ≤ (roundMant num den2 : ℚ) *
            (2 : ℚ) ^ ((bitlen x.n : Int) - bitlen x.d - 23) :=
            mul_le_mul_of_nonneg_right hb.1 hpe.le
    · calc (roundMant num den2 : ℚ) *
          (2 : ℚ) ^ ((bitlen x.n : Int) - bitlen x.d - 23)
          ≤ (num : ℚ) / den2 * (1 + 1 / 2 ^ 24) *
            (2 : ℚ) ^ ((bitlen x.n : Int) - bitlen x.d - 23) :=
            mul_le_mul_of_nonneg_right hb.2 hpe.le
        _ = x.val * (1 + 1 / 2 ^ 24) := by
            rw [← hveq]
            ring

theorem rnd24_zero_n (x : F32Q) (h : x.n = 0) : rnd24 x = ⟨0, 1⟩ := by
  rw [rnd24, if_pos (Or.inl h)]

theorem rnd24_d_pos (x : F32Q) : 0 < (rnd24 x).d := by
  rw [rnd24]
  split_ifs
  · norm_num
  · exact scaleVal_d_pos _ _
  · exact scaleVal_d_pos _ _

theorem F32Q.val_pos (x : F32Q) (hn : x.n ≠ 0) (hd : x.d ≠ 0) : 0 < x.val := by
  rw [F32Q.val]
  have h1 : (0 : ℚ) < (x.n : ℚ) := by exact_mod_cast Nat.pos_of_ne_zero hn
  have h2 : (0 : ℚ) < (x.d : ℚ) := by exact_mod_cast Nat.pos_of_ne_zero hd
  positivity

theorem F32Q.n_ne_zero_of_val_pos (x : F32Q) (h : 0 < x.val) : x.n ≠ 0 := by
  intro h0
  rw [F32Q.val, h0] at h
  simp at h

theorem qdiv_val (x y : F32Q) (hxd : x.d ≠ 0) (hyn : y.n ≠ 0) (hyd : y.d ≠ 0) :
    (qdiv x y).val = x.val / y.val := by
  simp only [qdiv, F32Q.val]
  have h1 : ((x.d : ℚ)) ≠ 0 := Nat.cast_ne_zero.mpr hxd
  have h2 : ((y.n : ℚ)) ≠ 0 := Nat.cast_ne_zero.mpr hyn
  have h3 : ((y.d : ℚ)) ≠ 0 := Nat.cast_ne_zero.mpr hyd
  push_cast
  field_simp

theorem qmul100_val (x : F32Q) : (qmul100 x).val = x.val * 100 := by
  simp only [qmul100, F32Q.val]
  push_cast
  ring

theorem rnd24_stage (x : F32Q) (hn : x.n ≠ 0) (hd : x.d ≠ 0) (hpos : 0 < x.val) :
    (rnd24 x).n ≠ 0 ∧ (rnd24 x).d ≠ 0 ∧ 0 < (rnd24 x).val ∧
    x.val * (1 - 1 / 2 ^ 24) ≤ (rnd24 x).val ∧
    (rnd24 x).val ≤ x.val * (1 + 1 / 2 ^ 24) := by
  have hb := rnd24_val_bounds x hn hd
  have hrpos : 0 < (rnd24 x).val := lt_of_lt_of_le (by nlinarith) hb.1
  exact ⟨F32Q.n_ne_zero_of_val_pos _ hrpos, (rnd24_d_pos _).ne', hrpos, hb.1, hb.2⟩

theorem val_mk_one (n : Nat) : (⟨n, 1⟩ : F32Q).val = (n : ℚ) := by
  simp [F32Q.val]

theorem goPctN_le_100 (pos total : Nat) (hle : pos ≤ total) (h0 : 0 < total) :
    goPctN pos total ≤ 100 := by
  by_cases hp : pos = 0
  · subst hp
    simp only [goPctN]
    rw [rnd24_zero_n ⟨0, 1⟩ rfl]
    rw [rnd24_zero_n (qdiv ⟨0, 1⟩ (rnd24 ⟨total, 1⟩)) (by simp [qdiv])]
    rw [rnd24_zero_n (qmul100 ⟨0, 1⟩) (by simp [qmul100])]
    norm_num
  · have htot : total ≠ 0 := by omega
    have hposQ : (1 : ℚ) ≤ (pos : ℚ) := by
      exact_mod_cast Nat.one_le_iff_ne_zero.mpr hp
    have htotQ : (1 : ℚ) ≤ (total : ℚ) := by exact_mod_cast h0
    have hleQ : (pos : ℚ) ≤ (total : ℚ) := by exact_mod_cast hle
    obtain ⟨hXn, hXd, hXpos, hXlo, hXhi⟩ :=
      rnd24_stage ⟨pos, 1⟩ hp one_ne_zero (by rw [val_mk_one]; positivity)
    obtain ⟨hYn, hYd, hYpos, hYlo, hYhi⟩ :=
      rnd24_stage ⟨total, 1⟩ htot one_ne_zero (by rw [val_mk_one]; positivity)
    rw [val_mk_one] at hXlo hXhi
    rw [val_mk_one] at hYlo hYhi
    have hZval : (qdiv (rnd24 ⟨pos, 1⟩) (rnd24 ⟨total, 1⟩)).val =
        (rnd24 ⟨pos, 1⟩).val / (rnd24 ⟨total, 1⟩).val := qdiv_val _ _ hXd hYn hYd
    have hZn : (qdiv (rnd24 ⟨pos, 1⟩) (rnd24 ⟨total, 1⟩)).n ≠ 0 :=
      Nat.mul_ne_zero hXn hYd
    have hZd : (qdiv (rnd24 ⟨pos, 1⟩) (rnd24 ⟨total, 1⟩)).d ≠ 0 :=
      Nat.mul_ne_zero hXd hYn
    have hZpos : 0 < (qdiv (rnd24 ⟨pos, 1⟩) (rnd24 ⟨total, 1⟩)).val := by
      rw [hZval]
      exact div_pos hXpos hYpos
    have hZle : (qdiv (rnd24 ⟨pos, 1⟩) (rnd24 ⟨total, 1⟩)).val ≤
        (1 + 1 / 2 ^ 24) / (1 - 1 / 2 ^ 24) := by
      rw [hZval, div_le_iff hYpos]
      have h2 : (1 + 1 / 2 ^ 24) / (1 - 1 / 2 ^ 24) * ((total : ℚ) * (1 - 1 / 2 ^ 24)) =
          (total : ℚ) * (1 + 1 / 2 ^ 24) := by
        field_simp
        ring
      calc (rnd24 ⟨pos, 1⟩).val ≤ (pos : ℚ) * (1 + 1 / 2 ^ 24) := hXhi
        _ ≤ (total : ℚ) * (1 + 1 / 2 ^ 24) := by nlinarith
        _ = (1 + 1 / 2 ^ 24) / (1 - 1 / 2 ^ 24) * ((total : ℚ) * (1 - 1 / 2 ^ 24)) :=
            h2.symm
        _ ≤ (1 + 1 / 2 ^ 24) / (1 - 1 / 2 ^ 24) * (rnd24 ⟨total, 1⟩).val :=
            mul_le_mul_of_nonneg_left hYlo (by norm_num)
    obtain ⟨hRn, hRd, hRpos, hRlo, hRhi⟩ := rnd24_stage _ hZn hZd hZpos
    have hRle : (rnd24 (qdiv (rnd24 ⟨pos, 1⟩) (rnd24 ⟨total, 1⟩))).val ≤
        (1 + 1 / 2 ^ 24) / (1 - 1 / 2 ^ 24) * (1 + 1 / 2 ^ 24) := by
      calc (rnd24 (qdiv (rnd24 ⟨pos, 1⟩) (rnd24 ⟨total, 1⟩))).val
          ≤ (qdiv (rnd24 ⟨pos, 1⟩) (rnd24 ⟨total, 1⟩)).val * (1 + 1 / 2 ^ 24) := hRhi
        _ ≤ (1 + 1 / 2 ^ 24) / (1 - 1 / 2 ^ 24) * (1 + 1 / 2 ^ 24) :=
            mul_le_mul_of_nonneg_right hZle (by norm_num)
    have hWval : (qmul100 (rnd24 (qdiv (rnd24 ⟨pos, 1⟩) (rnd24 ⟨total, 1⟩)))).val =
        (rnd24 (qdiv (rnd24 ⟨pos, 1⟩) (rnd24 ⟨total, 1⟩))).val * 100 := qmul100_val _
    have hWn : (qmul100 (rnd24 (qdiv (rnd24 ⟨pos, 1⟩) (rnd24 ⟨total, 1⟩)))).n ≠ 0 :=
      Nat.mul_ne_zero hRn (by norm_num)
    have hWd : (qmul100 (rnd24 (qdiv (rnd24 ⟨pos, 1⟩) (rnd24 ⟨total, 1⟩)))).d ≠ 0 := hRd
    have hWpos : 0 < (qmul100 (rnd24 (qdiv (rnd24 ⟨pos, 1⟩) (rnd24 ⟨total, 1⟩)))).val := by
      rw [hWval]
      positivity
    obtain ⟨hPn, hPd, hPpos, hPlo, hPhi⟩ := rnd24_stage _ hWn hWd hWpos
    have hPle : (rnd24 (qmul100 (rnd24 (qdiv (rnd24 ⟨pos, 1⟩) (rnd24 ⟨total, 1⟩))))).val <
        101 := by
      have hchain : (rnd24 (qmul100 (rnd24 (qdiv (rnd24 ⟨pos, 1⟩)
          (rnd24 ⟨total, 1⟩))))).val ≤
          (1 + 1 / 2 ^ 24) / (1 - 1 / 2 ^ 24) * (1 + 1 / 2 ^ 24) * 100 *
            (1 + 1 / 2 ^ 24) := by
        calc (rnd24 (qmul100 (rnd24 (qdiv (rnd24 ⟨pos, 1⟩) (rnd24 ⟨total, 1⟩))))).val
            ≤ (qmul100 (rnd24 (qdiv (rnd24 ⟨pos, 1⟩) (rnd24 ⟨total, 1⟩)))).val *
              (1 + 1 / 2 ^ 24) := hPhi
          _ = (rnd24 (qdiv (rnd24 ⟨pos, 1⟩) (rnd24 ⟨total, 1⟩))).val * 100 *
              (1 + 1 / 2 ^ 24) := by rw [hWval]
          _ ≤ (1 + 1 / 2 ^ 24) / (1 - 1 / 2 ^ 24) * (1 + 1 / 2 ^ 24) * 100 *
              (1 + 1 / 2 ^ 24) := by
              have := mul_le_mul_of_nonneg_right hRle (show (0:ℚ) ≤ 100 by norm_num)
              exact mul_le_mul_of_nonneg_right this (by norm_num)
      have hnumb : (1 + 1 / 2 ^ 24) / (1 - 1 / 2 ^ 24) * (1 + 1 / 2 ^ 24) * 100 *
          (1 + 1 / 2 ^ 24) < (101 : ℚ) := by norm_num
      linarith
    simp only [goPctN]
    have hPdpos : 0 < (rnd24 (qmul100 (rnd24 (qdiv (rnd24 ⟨pos, 1⟩)
        (rnd24 ⟨total, 1⟩))))).d := Nat.pos_of_ne_zero hPd
    have hlt : (rnd24 (qmul100 (rnd24 (qdiv (rnd24 ⟨pos, 1⟩) (rnd24 ⟨total, 1⟩))))).n <
        101 * (rnd24 (qmul100 (rnd24 (qdiv (rnd24 ⟨pos, 1⟩) (rnd24 ⟨total, 1⟩))))).d := by
      have hq := hPle
      rw [F32Q.val, div_lt_iff (by exact_mod_cast hPdpos)] at hq
      exact_mod_cast hq
    have hdiv : (rnd24 (qmul100 (rnd24 (qdiv (rnd24 ⟨pos, 1⟩) (rnd24 ⟨total, 1⟩))))).n /
        (rnd24 (qmul100 (rnd24 (qdiv (rnd24 ⟨pos, 1⟩) (rnd24 ⟨total, 1⟩))))).d < 101 :=
      (Nat.div_lt_iff_lt_mul hPdpos).mpr hlt
    omega

theorem update_lastPct_step (env : SlackEnv) (p p2 : Progress) (pos : Int) (err : Option GoErr)
    (hT : 0 < p.Opts.TotalUnits) (hpos0 : 0 ≤ pos) (hpos1 : pos ≤ p.Opts.TotalUnits)
    (hinv : 0 ≤ p.lastPct ∧ p.lastPct ≤ 100)
    (h : p.Update env pos = some (p2, err)) :
    (0 ≤ p2.lastPct ∧ p2.lastPct ≤ 100) ∧ p.lastPct ≤ p2.lastPct ∧ p2.Opts = p.Opts := by
  have hpct0 : 0 ≤ goPct pos p.Opts.TotalUnits := by
    rw [goPct]
    exact Int.natCast_nonneg _
  have hpct100 : goPct pos p.Opts.TotalUnits ≤ 100 := by
    rw [goPct]
    have := goPctN_le_100 pos.toNat p.Opts.TotalUnits.toNat (by omega) (by omega)
    exact_mod_cast this
  simp only [Progress.Update] at h
  rw [if_neg (show ¬ pos < 0 by omega), if_neg (show ¬ pos > p.Opts.TotalUnits by omega)] at h
  by_cases hth : goPct pos p.Opts.TotalUnits ≤ p.lastPct
  · rw [if_pos hth] at h
    simp only [Option.some.injEq, Prod.mk.injEq] at h
    obtain ⟨h1, -⟩ := h
    subst h1
    exact ⟨hinv, le_refl _, rfl⟩
  · rw [if_neg hth] at h
    cases hm : p.msg env (goPct pos p.Opts.TotalUnits) with
    | none =>
      rw [hm] at h
      cases h
    | some res =>
      rw [hm] at h
      cases res with
      | error e =>
        simp only [Option.some.injEq, Prod.mk.injEq] at h
        obtain ⟨h1, -⟩ := h
        subst h1
        exact ⟨hinv, le_refl _, rfl⟩
      | ok m =>
        simp only [] at h
        by_cases hts : p.ts = []
        · rw [if_pos hts] at h
          simp only [Option.some.injEq, Prod.mk.injEq] at h
          obtain ⟨h1, -⟩ := h
          subst h1
          exact ⟨hinv, le_refl _, rfl⟩
        · rw [if_neg hts] at h
          simp only [Option.some.injEq, Prod.mk.injEq] at h
          obtain ⟨h1, -⟩ := h
          subst h1
          refine ⟨⟨?_, ?_⟩, ?_, rfl⟩ <;> simp only [] <;> omega

theorem runStates_inv (env : SlackEnv) (ps : List Int) :
    ∀ (p : Progress) (sts : List Progress),
      0 < p.Opts.TotalUnits →
      (∀ pos ∈ ps, 0 ≤ pos ∧ pos ≤ p.Opts.TotalUnits) →
      runStates env p ps = some sts →
      0 ≤ p.lastPct ∧ p.lastPct ≤ 100 →
      (∀ q ∈ sts, 0 ≤ q.lastPct ∧ q.lastPct ≤ 100) ∧
      List.Chain' (· ≤ ·) (p.lastPct :: sts.map (fun q => q.lastPct)) := by
  induction ps with
  | nil =>
    intro p sts hT hin hrun hinv
    simp only [runStates, Option.some.injEq] at hrun
    subst hrun
    simp
  | cons pos rest ih =>
    intro p sts hT hin hrun hinv
    simp only [runStates] at hrun
    cases hup : p.Update env pos with
    | none =>
      rw [hup] at hrun
      cases hrun
    | some pr =>
      rw [hup] at hrun
      obtain ⟨p2, err⟩ := pr
      simp only [] at hrun
      cases hrest : runStates env p2 rest with
      | none =>
        rw [hrest] at hrun
        cases hrun
      | some sts2 =>
        rw [hrest] at hrun
        simp only [Option.some.injEq] at hrun
        subst hrun
        have hmem : pos ∈ pos :: rest := List.mem_cons_self pos rest
        have hstep := update_lastPct_step env p p2 pos err hT (hin pos hmem).1
          (hin pos hmem).2 hinv hup
        have hOpts : p2.Opts = p.Opts := hstep.2.2
        have ih2 := ih p2 sts2 (by rw [hOpts]; exact hT)
          (fun q hq => by rw [hOpts]; exact hin q (List.mem_cons_of_mem _ hq))
          hrest hstep.1
        constructor
        · intro q hq
          rcases List.mem_cons.mp hq with h1 | h2
          · subst h1
            exact hstep.1
          · exact ih2.1 q h2
        · rw [List.map_cons, List.chain'_cons]
          exact ⟨hstep.2.1, ih2.2⟩

/-- C9: starting from a tracker built by `New` (so `lastPct = 0`) with a
positive configured total, any sequence of `Update` calls with in-range
positions — monotone or not — keeps `lastPct` in `[0, 100]` after every call,
and the sequence of `lastPct` values is monotonically non-decreasing. -/
theorem lastPct_invariant_monotone (env : SlackEnv) (tok ch : GoStr) (opts : Option Options)
    (t0 : Int) (ps : List Int) (sts : List Progress)
    (hT : 0 < (New tok ch opts t0).Opts.TotalUnits)
    (hin : ∀ pos ∈ ps, 0 ≤ pos ∧ pos ≤ (New tok ch opts t0).Opts.TotalUnits)
    (hrun : runStates env (New tok ch opts t0) ps = some sts) :
    (∀ q ∈ sts, 0 ≤ q.lastPct ∧ q.lastPct ≤ 100) ∧
    List.Chain' (· ≤ ·) (0 :: sts.map (fun q => q.lastPct)) := by
  have h0 : (New tok ch opts t0).lastPct = 0 := rfl
  have h := runStates_inv env ps (New tok ch opts t0) sts hT hin hrun
    (by rw [h0]; exact ⟨le_refl 0, by norm_num⟩)
  rw [h0] at h
  exact h

/-- Witness for C9: a single in-range call `Update(50)` on the default fresh
tracker (first post: `lastPct` stays 0, within `[0, 100]`, chain `0 ≤ 0`). -/
theorem lastPct_invariant_monotone_witness :
    (∀ q ∈ [{ pFresh with channel := ['c', 'h'], ts := ['t', '1'] }],
        0 ≤ q.lastPct ∧ q.lastPct ≤ 100) ∧
    List.Chain' (· ≤ ·)
      (0 :: List.map (fun q => q.lastPct)
        [{ pFresh with channel := ['c', 'h'], ts := ['t', '1'] }]) :=
  lastPct_invariant_monotone (envOk 0) "tok".toList "dm".toList none 0 [50] _
    (by decide) (by decide) rfl
